import Mathlib

/-
Verification of the veterinary-room simulator (q3.py) and the
programmers/compiler resource protocol (programadores.py).

The Python code is shallowly embedded: Python dataclasses become Lean
structures, the `simulate` while-loop becomes a fuel-indexed recursion
(the fuel is one more than the source's own `max_iterations` cap, so the
source's guard, not the fuel, ends the loop), and in-place mutation of
Animal objects becomes explicit state threading: an animal's record value
is replaced wherever the Python code would mutate the aliased object.
Python ints are `Int`; the -1 sentinel for unset `entry_time` / `exit_time`
is kept.  Float averages are embedded as exact `Rat` division.
-/

namespace Q3

/-- Mirror of the `Animal` dataclass in q3.py. -/
structure Animal where
  id : String
  species : String
  arrival_time : Int
  rest_duration : Int
  remaining_rest : Int
  entry_time : Int
  exit_time : Int
deriving DecidableEq, Repr

/-- The dataclass constructor together with `__post_init__`, which sets
`remaining_rest = rest_duration`; `entry_time` and `exit_time` start at -1. -/
def mkAnimal (id species : String) (arrival rest : Int) : Animal :=
  { id := id, species := species, arrival_time := arrival, rest_duration := rest,
    remaining_rest := rest, entry_time := -1, exit_time := -1 }

/-- One entry of the `workload.animals` list of the config dictionary. -/
structure AnimalSpec where
  id : String
  species : String
  arrival_time : Int
  rest_duration : Int
deriving DecidableEq, Repr

/-- The fields of the config dictionary that `VeterinaryRoomSimulator.__init__`
stores on the instance. -/
structure Config where
  room_count : Int
  allowed_states : List String
  queue_policy : String
  sign_change_latency : Int
  tie_breaker : List String
  initial_sign : String
  animals : List AnimalSpec
deriving DecidableEq, Repr

/-- Mirror of `__init__` building `self.animals` from the workload. -/
def initAnimals (cfg : Config) : List Animal :=
  cfg.animals.map (fun a => mkAnimal a.id a.species a.arrival_time a.rest_duration)

/-- Mirror of `VeterinaryRoomSimulator.can_enter_room`: admit when the room is empty,
otherwise admit exactly when the candidate's species matches every occupant.
The `current_sign` argument is received but never consulted, as in the source. -/
def can_enter_room (animal : Animal) (current_sign : String)
    (animals_in_room : List Animal) : Bool :=
  if animals_in_room.length = 0 then
    true
  else
    animals_in_room.all (fun room_animal => animal.species == room_animal.species)

/-- Lexicographic comparison of character lists by Unicode code point —
Python's `<` on strings. -/
def strLtAux : List Char → List Char → Bool
  | [], [] => false
  | [], _ :: _ => true
  | _ :: _, [] => false
  | a :: as, b :: bs =>
    if a.val < b.val then true
    else if b.val < a.val then false
    else strLtAux as bs

/-- Python's `<` on strings (code-point lexicographic order). -/
def strLt (a b : String) : Bool := strLtAux a.data b.data

/-- Python's key `(a.arrival_time, a.id)` compared lexicographically. -/
def keyLt (a b : Animal) : Bool :=
  decide (a.arrival_time < b.arrival_time) ||
    (a.arrival_time == b.arrival_time && strLt a.id b.id)

/-- Stable insertion used to realize Python's stable `sorted`: a newly
inserted element goes after every already-placed element whose key is not
strictly greater. -/
def insertStable (lt : Animal → Animal → Bool) (a : Animal) : List Animal → List Animal
  | [] => [a]
  | b :: bs => if lt a b then a :: b :: bs else b :: insertStable lt a bs

/-- Stable sort (insertion sort, elements inserted in original order),
agreeing with Python's stable `sorted` for the given strict key order. -/
def stableSort (lt : Animal → Animal → Bool) (l : List Animal) : List Animal :=
  l.foldl (fun acc a => insertStable lt a acc) []

/-- The priority-policy key `(0 if species == current_sign else 1,
arrival_time, id)` as a strict order. -/
def prioLt (sign : String) (a b : Animal) : Bool :=
  let ka : Int := if a.species == sign then 0 else 1
  let kb : Int := if b.species == sign then 0 else 1
  decide (ka < kb) || (ka == kb && keyLt a b)

/-- One record of the appended `timeline` list. -/
structure TimelineEntry where
  animal_id : String
  species : String
  arrival : Int
  entry : Int
  exit : Int
  wait_time : Int
  turnaround_time : Int
deriving DecidableEq, Repr

/-- The mutable local state of one `simulate` run.  `pending` is the suffix
`animals[animal_idx:]` of the sorted animal list still to arrive. -/
structure SimState where
  current_time : Int
  current_sign : String
  animals_in_room : List Animal
  waiting_queue : List Animal
  completed_animals : List Animal
  pending : List Animal
  total_wait_time : Int
  total_turnaround_time : Int
  sign_changes : Nat
  timeline : List TimelineEntry
  iterations : Nat
deriving DecidableEq, Repr

/-- The constant `max_iterations = 10000` of `simulate`. -/
def maxIterations : Nat := 10000

/-- The arrival loop: move every pending animal with
`arrival_time <= current_time` to the back of the waiting queue, in order. -/
def drainArrivals (t : Int) (queue : List Animal) : List Animal → List Animal × List Animal
  | [] => (queue, [])
  | a :: rest =>
    if a.arrival_time ≤ t then drainArrivals t (queue ++ [a]) rest
    else (queue, a :: rest)

/-- Arrival phase of one loop iteration. -/
def phaseArrive (s : SimState) : SimState :=
  let qp := drainArrivals s.current_time s.waiting_queue s.pending
  { s with waiting_queue := qp.1, pending := qp.2 }

/-- Completing one animal whose rest is over: stamp `exit_time`, remove it
from the room, append it to `completed_animals`, accumulate the metrics and
append the timeline record — exactly the body of the removal loop. -/
def completeOne (s : SimState) (a : Animal) : SimState :=
  let a2 := { a with exit_time := s.current_time }
  let turnaround := a2.exit_time - a2.arrival_time
  let wait := a2.entry_time - a2.arrival_time
  { s with
    animals_in_room := s.animals_in_room.erase a
    completed_animals := s.completed_animals ++ [a2]
    total_turnaround_time := s.total_turnaround_time + turnaround
    total_wait_time := s.total_wait_time + wait
    timeline := s.timeline ++
      [{ animal_id := a2.id, species := a2.species, arrival := a2.arrival_time,
         entry := a2.entry_time, exit := a2.exit_time,
         wait_time := wait, turnaround_time := turnaround }] }

/-- Removal phase: the source first collects `animals_to_remove` (occupants
with `remaining_rest <= 0`) and then processes them one by one. -/
def phaseComplete (s : SimState) : SimState :=
  (s.animals_in_room.filter (fun a => decide (a.remaining_rest ≤ 0))).foldl completeOne s

/-- Sign reset: if the room just became empty and the sign is not EMPTY, the
sign flips to EMPTY and the counter is incremented. -/
def phaseSignEmpty (s : SimState) : SimState :=
  if s.animals_in_room.length == 0 && !(s.current_sign == "EMPTY") then
    { s with current_sign := "EMPTY", sign_changes := s.sign_changes + 1 }
  else s

/-- Body of `for animal in candidates[:]`: on a positive `can_enter_room`
check the sign change (with latency added to `current_time` first, when
positive) happens before `entry_time` is stamped; the animal moves from the
waiting queue into the room. -/
def admitOne (latency : Int) (s : SimState) (animal : Animal) : SimState :=
  if can_enter_room animal s.current_sign s.animals_in_room then
    let s1 :=
      if s.current_sign == "EMPTY" then
        { s with
          current_time := if latency > 0 then s.current_time + latency else s.current_time
          current_sign := animal.species
          sign_changes := s.sign_changes + 1 }
      else s
    { s1 with
      animals_in_room := s1.animals_in_room ++ [{ animal with entry_time := s1.current_time }]
      waiting_queue := s1.waiting_queue.erase animal }
  else s

/-- Admission phase: candidates are the waiting queue as-is under FIFO and
the priority-sorted queue otherwise; each is tried in order. -/
def phaseAdmit (cfg : Config) (s : SimState) : SimState :=
  if s.waiting_queue.isEmpty then s
  else
    let candidates :=
      if cfg.queue_policy == "FIFO" then s.waiting_queue
      else stableSort (prioLt s.current_sign) s.waiting_queue
    candidates.foldl (admitOne cfg.sign_change_latency) s

/-- Tail of the loop body: decrement rest and advance time when the room is
occupied; otherwise advance (possibly skipping to the next arrival); the
returned flag is true exactly on the source's `break`. -/
def phaseAdvance (s : SimState) : SimState × Bool :=
  if !s.animals_in_room.isEmpty then
    ({ s with
        animals_in_room :=
          s.animals_in_room.map (fun a => { a with remaining_rest := a.remaining_rest - 1 })
        current_time := s.current_time + 1 }, false)
  else if !s.waiting_queue.isEmpty then
    match s.pending with
    | a :: _ => ({ s with current_time := min (s.current_time + 1) a.arrival_time }, false)
    | [] => ({ s with current_time := s.current_time + 1 }, false)
  else
    match s.pending with
    | a :: _ => ({ s with current_time := a.arrival_time }, false)
    | [] => (s, true)

/-- One full iteration of the `while` loop of `simulate`. -/
def stepBody (cfg : Config) (s : SimState) : SimState × Bool :=
  phaseAdvance (phaseAdmit cfg (phaseSignEmpty (phaseComplete (phaseArrive
    { s with iterations := s.iterations + 1 }))))

/-- The `while (len(completed_animals) < len(animals)) and iterations <
max_iterations` loop, fuel-indexed.  `n` is `len(animals)`. -/
def runLoop (cfg : Config) (n : Nat) : Nat → SimState → SimState
  | 0, s => s
  | Nat.succ fuel, s =>
    if s.completed_animals.length < n ∧ s.iterations < maxIterations then
      let sb := stepBody cfg s
      if sb.2 then sb.1 else runLoop cfg n fuel sb.1
    else s

/-- The number `len(animals)` of workload animals. -/
def numAnimals (cfg : Config) : Nat := cfg.animals.length

/-- The local state at the top of `simulate`: time 0, the configured initial
sign, empty room/queue, and the animals sorted by `(arrival_time, id)`. -/
def initState (cfg : Config) : SimState :=
  { current_time := 0
    current_sign := cfg.initial_sign
    animals_in_room := []
    waiting_queue := []
    completed_animals := []
    pending := stableSort keyLt (initAnimals cfg)
    total_wait_time := 0
    total_turnaround_time := 0
    sign_changes := 0
    timeline := []
    iterations := 0 }

/-- The state when the `while` loop of `simulate` has ended.  The fuel
`maxIterations + 1` exceeds the source's own iteration cap, so the loop
always ends through the source's guard or `break`, never through the fuel. -/
def finalState (cfg : Config) : SimState :=
  runLoop cfg (numAnimals cfg) (maxIterations + 1) (initState cfg)

/-- The dictionary `simulate` returns. -/
structure SimResult where
  total_animals : Nat
  avg_wait_time : Rat
  avg_turnaround_time : Rat
  total_sign_changes : Nat
  total_time : Int
  timeline : List TimelineEntry
deriving DecidableEq, Repr

/-- Mirror of `VeterinaryRoomSimulator.simulate`. -/
def simulate (cfg : Config) : SimResult :=
  let s := finalState cfg
  let n := numAnimals cfg
  { total_animals := n
    avg_wait_time := if 0 < n then (s.total_wait_time : Rat) / (n : Rat) else 0
    avg_turnaround_time := if 0 < n then (s.total_turnaround_time : Rat) / (n : Rat) else 0
    total_sign_changes := s.sign_changes
    total_time := s.current_time
    timeline := s.timeline }

/-- All animals of a list share one species (the occupant-species set has
size at most 1). -/
def sameSpecies (l : List Animal) : Prop :=
  ∀ a ∈ l, ∀ b ∈ l, a.species = b.species

/-- A completed animal's record no longer looks freshly constructed: its
rest has been consumed and both timestamps have been stamped (they start
at the -1 sentinel and are only ever overwritten with the non-negative
simulation clock). -/
def animalFinished (a : Animal) : Bool :=
  decide (a.remaining_rest ≤ 0) && decide (0 ≤ a.entry_time) && decide (0 ≤ a.exit_time)

/-- Run invariant backing the mutation claim: the clock is non-negative,
occupants have stamped non-negative entry times, completed animals have
exhausted rest and both timestamps stamped, and still-pending animals have
non-negative arrival times. -/
def timesInv (s : SimState) : Prop :=
  0 ≤ s.current_time ∧
  (∀ a ∈ s.animals_in_room, 0 ≤ a.entry_time) ∧
  (∀ a ∈ s.completed_animals,
      a.remaining_rest ≤ 0 ∧ 0 ≤ a.entry_time ∧ 0 ≤ a.exit_time) ∧
  (∀ a ∈ s.pending, 0 ≤ a.arrival_time)

/-- Configuration with capacity (`room_count`) 1 and two dogs arriving
together — exercises the missing capacity check. -/
def c1cfg : Config :=
  { room_count := 1
    allowed_states := ["EMPTY", "DOGS", "CATS"]
    queue_policy := "FIFO"
    sign_change_latency := 0
    tie_breaker := ["arrival_time", "id"]
    initial_sign := "EMPTY"
    animals := [⟨"D1", "DOG", 0, 5⟩, ⟨"D2", "DOG", 0, 5⟩] }

/-- One animal whose rest outlasts the 10000-iteration cap — exercises the
livelock/iteration-cap path of `simulate`. -/
def c3cfg : Config :=
  { room_count := 1
    allowed_states := ["EMPTY", "DOGS", "CATS"]
    queue_policy := "FIFO"
    sign_change_latency := 0
    tie_breaker := ["arrival_time", "id"]
    initial_sign := "EMPTY"
    animals := [⟨"D1", "DOG", 0, 20000⟩] }

/-- A candidate whose species is outside `allowed_states`. -/
def c4cfg : Config :=
  { room_count := 1
    allowed_states := ["EMPTY", "DOGS", "CATS"]
    queue_policy := "FIFO"
    sign_change_latency := 0
    tie_breaker := ["arrival_time", "id"]
    initial_sign := "EMPTY"
    animals := [⟨"L1", "LIZARD", 0, 3⟩] }

/-- The spec's two-animal scenario: D1(DOG, arr 0, rest 5), C1(CAT, arr 1,
rest 3), FIFO, latency 0, capacity 1, initial sign EMPTY. -/
def c5cfg : Config :=
  { room_count := 1
    allowed_states := ["EMPTY", "DOGS", "CATS"]
    queue_policy := "FIFO"
    sign_change_latency := 0
    tie_breaker := ["arrival_time", "id"]
    initial_sign := "EMPTY"
    animals := [⟨"D1", "DOG", 0, 5⟩, ⟨"C1", "CAT", 1, 3⟩] }

/-- The spec's latency scenario: sign_change_latency 2, one DOG arriving at
t = 0 with rest 3. -/
def c6cfg : Config :=
  { room_count := 1
    allowed_states := ["EMPTY", "DOGS", "CATS"]
    queue_policy := "FIFO"
    sign_change_latency := 2
    tie_breaker := ["arrival_time", "id"]
    initial_sign := "EMPTY"
    animals := [⟨"D1", "DOG", 0, 3⟩] }

/-- One dog with rest 1 — a run in which every animal completes. -/
def w9cfg : Config :=
  { room_count := 1
    allowed_states := ["EMPTY", "DOGS", "CATS"]
    queue_policy := "FIFO"
    sign_change_latency := 0
    tie_breaker := ["arrival_time", "id"]
    initial_sign := "EMPTY"
    animals := [⟨"D1", "DOG", 0, 1⟩] }

/-- The state of the `c3cfg` run after `k ≥ 1` loop iterations: the single
dog entered at t = 0 and is still resting, the clock and the iteration count
both stand at `k`, and its remaining rest is `20000 - k`. -/
def c3state (k : Nat) : SimState :=
  { current_time := (k : Int)
    current_sign := "DOG"
    animals_in_room := [Animal.mk "D1" "DOG" 0 20000 (20000 - (k : Int)) 0 (-1)]
    waiting_queue := []
    completed_animals := []
    pending := []
    total_wait_time := 0
    total_turnaround_time := 0
    sign_changes := 1
    timeline := []
    iterations := k }

/-- The result record `simulate` builds for `c3cfg`, as a function of the
final loop state. -/
def c3Res (s : SimState) : SimResult :=
  { total_animals := numAnimals c3cfg
    avg_wait_time := if 0 < numAnimals c3cfg
      then (s.total_wait_time : Rat) / ((numAnimals c3cfg : Nat) : Rat) else 0
    avg_turnaround_time := if 0 < numAnimals c3cfg
      then (s.total_turnaround_time : Rat) / ((numAnimals c3cfg : Nat) : Rat) else 0
    total_sign_changes := s.sign_changes
    total_time := s.current_time
    timeline := s.timeline }

/-- A dog occupying the room (entry already stamped). -/
def occD : Animal := { mkAnimal "D1" "DOG" 0 5 with entry_time := 0 }

/-- A same-species candidate for the occupied room. -/
def candD : Animal := mkAnimal "D2" "DOG" 0 4

/-- A waiting dog used to exercise a single admission step. -/
def dogW : Animal := mkAnimal "DW" "DOG" 0 3

/-- A concrete pre-admission state: empty room, sign EMPTY, time 0. -/
def st0 : SimState :=
  { current_time := 0
    current_sign := "EMPTY"
    animals_in_room := []
    waiting_queue := [dogW]
    completed_animals := []
    pending := []
    total_wait_time := 0
    total_turnaround_time := 0
    sign_changes := 0
    timeline := []
    iterations := 0 }

end Q3

namespace Prog

/-- The constant `NUM_PROGRAMMERS = 5` of programadores.py. -/
def NUM_PROGRAMMERS : Nat := 5

/-- The constant `MAX_DB_USERS = 2` of programadores.py. -/
def MAX_DB_USERS : Int := 2

/-- The shared state of programadores.py: the two resource variables plus,
per programmer thread, whether it is currently between its acquire and its
release (the set `compiling`).  Thinking and waiting phases do not touch
shared state and are collapsed into "not compiling". -/
structure LabState where
  compiler_in_use : Bool
  db_users : Int
  compiling : Finset (Fin NUM_PROGRAMMERS)
deriving DecidableEq

/-- The state before any thread has acquired anything. -/
def initLab : LabState :=
  { compiler_in_use := false, db_users := 0, compiling := ∅ }

/-- One lock-protected transition of `programmer_life`.  Acquisition happens
only after the condition loop `while compiler_in_use or db_users >=
MAX_DB_USERS` exits, and sets `compiler_in_use = True` and `db_users += 1`
in the same critical section; release clears both in one critical section. -/
inductive LabStep : LabState → LabState → Prop
  | acquire (s : LabState) (i : Fin NUM_PROGRAMMERS) :
      i ∉ s.compiling →
      s.compiler_in_use = false →
      s.db_users < MAX_DB_USERS →
      LabStep s
        { compiler_in_use := true
          db_users := s.db_users + 1
          compiling := insert i s.compiling }
  | release (s : LabState) (i : Fin NUM_PROGRAMMERS) :
      i ∈ s.compiling →
      LabStep s
        { compiler_in_use := false
          db_users := s.db_users - 1
          compiling := s.compiling.erase i }

/-- States reachable from the initial state by the step relation. -/
inductive Reachable : LabState → Prop
  | init : Reachable initLab
  | step {s t : LabState} : Reachable s → LabStep s t → Reachable t

end Prog

/-
Lemmas and claim theorems.
-/

namespace Q3

theorem can_enter_room_eq_species {animal : Animal} {sign : String} {room : List Animal}
    (h : can_enter_room animal sign room = true) (hne : room ≠ []) :
    ∀ b ∈ room, animal.species = b.species := by
  intro b hb
  unfold can_enter_room at h
  rw [if_neg (by simpa [List.length_eq_zero] using hne)] at h
  exact eq_of_beq (List.all_eq_true.mp h b hb)

theorem sameSpecies_subset {l l2 : List Animal} (hsub : l2 ⊆ l) (h : sameSpecies l) :
    sameSpecies l2 :=
  fun a ha b hb => h a (hsub ha) b (hsub hb)

theorem sameSpecies_append {room : List Animal} {a : Animal}
    (h : sameSpecies room) (hall : ∀ b ∈ room, a.species = b.species) :
    sameSpecies (room ++ [a]) := by
  intro x hx y hy
  rcases List.mem_append.mp hx with hx | hx <;>
    rcases List.mem_append.mp hy with hy | hy
  · exact h x hx y hy
  · rw [List.mem_singleton.mp hy]; exact (hall x hx).symm
  · rw [List.mem_singleton.mp hx]; exact hall y hy
  · rw [List.mem_singleton.mp hx, List.mem_singleton.mp hy]

theorem foldl_completeOne_room_subset :
    ∀ (l : List Animal) (s : SimState),
      (l.foldl completeOne s).animals_in_room ⊆ s.animals_in_room := by
  intro l
  induction l with
  | nil => exact fun s x hx => hx
  | cons a t ih =>
    intro s x hx
    exact List.erase_subset _ _ (ih (completeOne s a) hx)

theorem phaseSignEmpty_room (s : SimState) :
    (phaseSignEmpty s).animals_in_room = s.animals_in_room := by
  unfold phaseSignEmpty
  split <;> rfl

theorem admitOne_room (latency : Int) (s : SimState) (a : Animal) :
    (admitOne latency s a).animals_in_room = s.animals_in_room ∨
    (can_enter_room a s.current_sign s.animals_in_room = true ∧
      ∃ t : Int, (admitOne latency s a).animals_in_room
        = s.animals_in_room ++ [{ a with entry_time := t }]) := by
  by_cases hcan : can_enter_room a s.current_sign s.animals_in_room = true
  · right
    refine ⟨hcan, ?_⟩
    by_cases hsign : (s.current_sign == "EMPTY") = true
    · exact ⟨if latency > 0 then s.current_time + latency else s.current_time,
        by simp [admitOne, hcan, hsign]⟩
    · exact ⟨s.current_time, by simp [admitOne, hcan, hsign]⟩
  · left
    simp [admitOne, hcan]

theorem admitOne_sameSpecies {latency : Int} {s : SimState} {a : Animal}
    (h : sameSpecies s.animals_in_room) :
    sameSpecies ((admitOne latency s a).animals_in_room) := by
  rcases admitOne_room latency s a with heq | ⟨hcan, t, heq⟩
  · rw [heq]; exact h
  · rw [heq]
    by_cases hne : s.animals_in_room = []
    · rw [hne]
      intro x hx y hy
      have hx2 : x = { a with entry_time := t } := by simpa using hx
      have hy2 : y = { a with entry_time := t } := by simpa using hy
      rw [hx2, hy2]
    · exact sameSpecies_append h (fun b hb => can_enter_room_eq_species hcan hne b hb)

theorem foldl_admitOne_sameSpecies (latency : Int) :
    ∀ (l : List Animal) (s : SimState),
      sameSpecies s.animals_in_room →
      sameSpecies ((l.foldl (admitOne latency) s).animals_in_room) := by
  intro l
  induction l with
  | nil => exact fun s h => h
  | cons a t ih => exact fun s h => ih _ (admitOne_sameSpecies h)

theorem phaseAdmit_sameSpecies (cfg : Config) {s : SimState}
    (h : sameSpecies s.animals_in_room) :
    sameSpecies ((phaseAdmit cfg s).animals_in_room) := by
  unfold phaseAdmit
  split
  · exact h
  · split <;> exact foldl_admitOne_sameSpecies _ _ _ h

theorem phaseAdvance_sameSpecies {s : SimState}
    (h : sameSpecies s.animals_in_room) :
    sameSpecies ((phaseAdvance s).1.animals_in_room) := by
  unfold phaseAdvance
  split
  · intro x hx y hy
    rcases List.mem_map.mp hx with ⟨x0, hx0, rfl⟩
    rcases List.mem_map.mp hy with ⟨y0, hy0, rfl⟩
    exact h x0 hx0 y0 hy0
  · split
    · split <;> exact h
    · split <;> exact h

theorem stepBody_sameSpecies (cfg : Config) {s : SimState}
    (h : sameSpecies s.animals_in_room) :
    sameSpecies ((stepBody cfg s).1.animals_in_room) := by
  unfold stepBody
  apply phaseAdvance_sameSpecies
  apply phaseAdmit_sameSpecies
  rw [phaseSignEmpty_room]
  exact sameSpecies_subset (foldl_completeOne_room_subset _ _) h

theorem runLoop_sameSpecies (cfg : Config) (n : Nat) :
    ∀ (fuel : Nat) (s : SimState),
      sameSpecies s.animals_in_room →
      sameSpecies ((runLoop cfg n fuel s).animals_in_room) := by
  intro fuel
  induction fuel with
  | zero => exact fun s h => h
  | succ f ih =>
    intro s h
    simp only [runLoop]
    split
    · split
      · exact stepBody_sameSpecies cfg h
      · exact ih _ (stepBody_sameSpecies cfg h)
    · exact h

end Q3

namespace Q3

theorem foldl_completeOne_iterations :
    ∀ (l : List Animal) (s : SimState), (l.foldl completeOne s).iterations = s.iterations := by
  intro l
  induction l with
  | nil => exact fun s => rfl
  | cons a t ih => exact fun s => ih (completeOne s a)

theorem admitOne_iterations (latency : Int) (s : SimState) (a : Animal) :
    (admitOne latency s a).iterations = s.iterations := by
  by_cases hcan : can_enter_room a s.current_sign s.animals_in_room = true
  · by_cases hsign : (s.current_sign == "EMPTY") = true
    · simp [admitOne, hcan, hsign]
    · simp [admitOne, hcan, hsign]
  · simp [admitOne, hcan]

theorem foldl_admitOne_iterations (latency : Int) :
    ∀ (l : List Animal) (s : SimState),
      (l.foldl (admitOne latency) s).iterations = s.iterations := by
  intro l
  induction l with
  | nil => exact fun s => rfl
  | cons a t ih =>
    intro s
    rw [List.foldl_cons, ih (admitOne latency s a), admitOne_iterations]

theorem phaseSignEmpty_iterations (s : SimState) :
    (phaseSignEmpty s).iterations = s.iterations := by
  unfold phaseSignEmpty
  split <;> rfl

theorem phaseAdmit_iterations (cfg : Config) (s : SimState) :
    (phaseAdmit cfg s).iterations = s.iterations := by
  unfold phaseAdmit
  split
  · rfl
  · split <;> exact foldl_admitOne_iterations _ _ _

theorem phaseAdvance_iterations (s : SimState) :
    (phaseAdvance s).1.iterations = s.iterations := by
  unfold phaseAdvance
  split
  · rfl
  · split
    · split <;> rfl
    · split <;> rfl

theorem stepBody_iterations (cfg : Config) (s : SimState) :
    (stepBody cfg s).1.iterations = s.iterations + 1 := by
  unfold stepBody
  rw [phaseAdvance_iterations, phaseAdmit_iterations, phaseSignEmpty_iterations]
  show ((_ : List Animal).foldl completeOne _).iterations = _
  rw [foldl_completeOne_iterations]
  rfl

theorem runLoop_iterations_le (cfg : Config) (n : Nat) :
    ∀ (fuel : Nat) (s : SimState),
      s.iterations + fuel ≤ maxIterations + 1 →
      s.iterations ≤ maxIterations →
      (runLoop cfg n fuel s).iterations ≤ maxIterations := by
  intro fuel
  induction fuel with
  | zero => exact fun s _ h2 => h2
  | succ f ih =>
    intro s h1 h2
    simp only [runLoop]
    split
    case isTrue hguard =>
      have hit := stepBody_iterations cfg s
      split
      · omega
      · exact ih _ (by omega) (by omega)
    case isFalse => exact h2

end Q3

namespace Q3

theorem drainArrivals_pending_subset (t : Int) :
    ∀ (p queue : List Animal), (drainArrivals t queue p).2 ⊆ p := by
  intro p
  induction p with
  | nil => intro q x hx; exact absurd hx (List.not_mem_nil x)
  | cons a rest ih =>
    intro q
    unfold drainArrivals
    split
    · exact fun x hx => List.mem_cons_of_mem a (ih _ hx)
    · exact fun x hx => hx

theorem insertStable_mem (lt : Animal → Animal → Bool) (a : Animal) :
    ∀ (l : List Animal) (x : Animal), x ∈ insertStable lt a l → x = a ∨ x ∈ l := by
  intro l
  induction l with
  | nil =>
    intro x hx
    exact Or.inl (List.mem_singleton.mp hx)
  | cons b bs ih =>
    intro x hx
    unfold insertStable at hx
    split at hx
    · rcases List.mem_cons.mp hx with h | h
      · exact Or.inl h
      · exact Or.inr h
    · rcases List.mem_cons.mp hx with h | h
      · exact Or.inr (h ▸ List.mem_cons_self b bs)
      · rcases ih x h with h2 | h2
        · exact Or.inl h2
        · exact Or.inr (List.mem_cons_of_mem b h2)

theorem stableSort_mem (lt : Animal → Animal → Bool) :
    ∀ (l acc : List Animal) (x : Animal),
      x ∈ l.foldl (fun acc a => insertStable lt a acc) acc → x ∈ acc ∨ x ∈ l := by
  intro l
  induction l with
  | nil => exact fun acc x hx => Or.inl hx
  | cons a t ih =>
    intro acc x hx
    rcases ih (insertStable lt a acc) x hx with h | h
    · rcases insertStable_mem lt a acc x h with h2 | h2
      · exact Or.inr (h2 ▸ List.mem_cons_self a t)
      · exact Or.inl h2
    · exact Or.inr (List.mem_cons_of_mem a h)

theorem stableSort_subset (lt : Animal → Animal → Bool) (l : List Animal) :
    stableSort lt l ⊆ l := by
  intro x hx
  rcases stableSort_mem lt l [] x hx with h | h
  · exact absurd h (List.not_mem_nil x)
  · exact h

theorem phaseArrive_timesInv {s : SimState} (h : timesInv s) : timesInv (phaseArrive s) := by
  obtain ⟨h1, h2, h3, h4⟩ := h
  exact ⟨h1, h2, h3, fun a ha => h4 a (drainArrivals_pending_subset _ _ _ ha)⟩

theorem foldl_completeOne_timesInv :
    ∀ (l : List Animal) (s : SimState),
      timesInv s → (∀ a ∈ l, a.remaining_rest ≤ 0 ∧ 0 ≤ a.entry_time) →
      timesInv (l.foldl completeOne s) := by
  intro l
  induction l with
  | nil => exact fun s h _ => h
  | cons a rest ih =>
    intro s h hl
    apply ih
    · obtain ⟨h1, h2, h3, h4⟩ := h
      refine ⟨h1, ?_, ?_, h4⟩
      · exact fun x hx => h2 x (List.erase_subset _ _ hx)
      · intro x hx
        rcases List.mem_append.mp hx with hx | hx
        · exact h3 x hx
        · have hx2 : x = { a with exit_time := s.current_time } := List.mem_singleton.mp hx
          subst hx2
          obtain ⟨ha1, ha2⟩ := hl a (List.mem_cons_self a rest)
          exact ⟨ha1, ha2, h1⟩
    · exact fun x hx => hl x (List.mem_cons_of_mem a hx)

theorem phaseComplete_timesInv {s : SimState} (h : timesInv s) : timesInv (phaseComplete s) := by
  apply foldl_completeOne_timesInv _ _ h
  intro a ha
  rw [List.mem_filter] at ha
  exact ⟨of_decide_eq_true ha.2, h.2.1 a ha.1⟩

theorem phaseSignEmpty_timesInv {s : SimState} (h : timesInv s) : timesInv (phaseSignEmpty s) := by
  unfold phaseSignEmpty
  split
  · exact ⟨h.1, h.2.1, h.2.2.1, h.2.2.2⟩
  · exact h

theorem admitOne_timesInv {latency : Int} (hl : 0 ≤ latency) {s : SimState} (a : Animal)
    (h : timesInv s) : timesInv (admitOne latency s a) := by
  obtain ⟨h1, h2, h3, h4⟩ := h
  by_cases hcan : can_enter_room a s.current_sign s.animals_in_room = true
  · by_cases hsign : (s.current_sign == "EMPTY") = true
    · by_cases hpos : latency > 0
      · simp only [admitOne, hcan, hsign, hpos, if_true, ite_true]
        refine ⟨show (0:Int) ≤ s.current_time + latency by omega, ?_, h3, h4⟩
        intro x hx
        rcases List.mem_append.mp hx with hx | hx
        · exact h2 x hx
        · have hx2 : x = { a with entry_time := s.current_time + latency } :=
            List.mem_singleton.mp hx
          subst hx2
          show 0 ≤ s.current_time + latency
          omega
      · simp only [admitOne, hcan, hsign, hpos, if_true, ite_true, if_false, ite_false]
        refine ⟨h1, ?_, h3, h4⟩
        intro x hx
        rcases List.mem_append.mp hx with hx | hx
        · exact h2 x hx
        · have hx2 : x = { a with entry_time := s.current_time } := List.mem_singleton.mp hx
          subst hx2
          exact h1
    · simp only [admitOne, hcan, hsign, if_true, ite_true, Bool.false_eq_true, if_false, ite_false]
      refine ⟨h1, ?_, h3, h4⟩
      intro x hx
      rcases List.mem_append.mp hx with hx | hx
      · exact h2 x hx
      · have hx2 : x = { a with entry_time := s.current_time } := List.mem_singleton.mp hx
        subst hx2
        exact h1
  · simp only [admitOne, hcan, Bool.false_eq_true, if_false, ite_false]
    exact ⟨h1, h2, h3, h4⟩

theorem foldl_admitOne_timesInv {latency : Int} (hl : 0 ≤ latency) :
    ∀ (l : List Animal) (s : SimState),
      timesInv s → timesInv (l.foldl (admitOne latency) s) := by
  intro l
  induction l with
  | nil => exact fun s h => h
  | cons a t ih => exact fun s h => ih _ (admitOne_timesInv hl a h)

theorem phaseAdmit_timesInv (cfg : Config) (hl : 0 ≤ cfg.sign_change_latency) {s : SimState}
    (h : timesInv s) : timesInv (phaseAdmit cfg s) := by
  unfold phaseAdmit
  split
  · exact h
  · split <;> exact foldl_admitOne_timesInv hl _ _ h

theorem phaseAdvance_timesInv {s : SimState} (h : timesInv s) :
    timesInv (phaseAdvance s).1 := by
  obtain ⟨h1, h2, h3, h4⟩ := h
  unfold phaseAdvance
  split
  · refine ⟨show (0:Int) ≤ s.current_time + 1 by omega, ?_, h3, h4⟩
    intro x hx
    rcases List.mem_map.mp hx with ⟨x0, hx0, rfl⟩
    exact h2 x0 hx0
  · split
    · split
      case _ a rest heq =>
        have ha : (0:Int) ≤ a.arrival_time := h4 a (heq ▸ List.mem_cons_self a rest)
        refine ⟨?_, h2, h3, h4⟩
        show (0:Int) ≤ min (s.current_time + 1) a.arrival_time
        omega
      case _ heq => exact ⟨show (0:Int) ≤ s.current_time + 1 by omega, h2, h3, h4⟩
    · split
      case _ a rest heq =>
        have ha : (0:Int) ≤ a.arrival_time := h4 a (heq ▸ List.mem_cons_self a rest)
        exact ⟨ha, h2, h3, h4⟩
      case _ heq => exact ⟨h1, h2, h3, h4⟩

theorem stepBody_timesInv (cfg : Config) (hl : 0 ≤ cfg.sign_change_latency) {s : SimState}
    (h : timesInv s) : timesInv (stepBody cfg s).1 := by
  unfold stepBody
  apply phaseAdvance_timesInv
  apply phaseAdmit_timesInv cfg hl
  apply phaseSignEmpty_timesInv
  apply phaseComplete_timesInv
  apply phaseArrive_timesInv
  exact ⟨h.1, h.2.1, h.2.2.1, h.2.2.2⟩

theorem runLoop_timesInv (cfg : Config) (n : Nat) (hl : 0 ≤ cfg.sign_change_latency) :
    ∀ (fuel : Nat) (s : SimState), timesInv s → timesInv (runLoop cfg n fuel s) := by
  intro fuel
  induction fuel with
  | zero => exact fun s h => h
  | succ f ih =>
    intro s h
    simp only [runLoop]
    split
    · split
      · exact stepBody_timesInv cfg hl h
      · exact ih _ (stepBody_timesInv cfg hl h)
    · exact h

end Q3

namespace Prog

theorem lab_inv_step {s t : LabState} (hstep : LabStep s t)
    (ih1 : s.db_users = (s.compiling.card : Int)) (ih2 : s.compiling.card ≤ 1)
    (ih3 : s.compiler_in_use = true ↔ s.compiling.card = 1) :
    t.db_users = (t.compiling.card : Int) ∧ t.compiling.card ≤ 1 ∧
      (t.compiler_in_use = true ↔ t.compiling.card = 1) := by
  cases hstep with
  | acquire i hni hc hdb =>
    have hcard : s.compiling.card = 0 := by
      rcases Nat.eq_or_lt_of_le ih2 with h1 | h1
      · exfalso
        have h2 := ih3.mpr h1
        rw [hc] at h2
        exact Bool.false_ne_true h2
      · omega
    refine ⟨?_, ?_, ?_⟩
    · show s.db_users + 1 = ((insert i s.compiling).card : Int)
      rw [Finset.card_insert_of_not_mem hni, hcard, ih1, hcard]
      rfl
    · show (insert i s.compiling).card ≤ 1
      rw [Finset.card_insert_of_not_mem hni, hcard]
    · show true = true ↔ (insert i s.compiling).card = 1
      rw [Finset.card_insert_of_not_mem hni, hcard]
      simp
  | release i hi =>
    have hcard : s.compiling.card = 1 := by
      have hpos : 0 < s.compiling.card := Finset.card_pos.mpr ⟨i, hi⟩
      omega
    refine ⟨?_, ?_, ?_⟩
    · show s.db_users - 1 = ((s.compiling.erase i).card : Int)
      rw [Finset.card_erase_of_mem hi, hcard, ih1, hcard]
      rfl
    · show (s.compiling.erase i).card ≤ 1
      rw [Finset.card_erase_of_mem hi, hcard]
      omega
    · show false = true ↔ (s.compiling.erase i).card = 1
      rw [Finset.card_erase_of_mem hi, hcard]
      simp

theorem lab_inv {s : LabState} (h : Reachable s) :
    s.db_users = (s.compiling.card : Int) ∧ s.compiling.card ≤ 1 ∧
      (s.compiler_in_use = true ↔ s.compiling.card = 1) := by
  induction h with
  | init =>
    refine ⟨by simp [initLab], by simp [initLab], ?_⟩
    simp [initLab]
  | step hr hstep ih =>
    obtain ⟨ih1, ih2, ih3⟩ := ih
    exact lab_inv_step hstep ih1 ih2 ih3

end Prog

namespace Q3

/-- C1 counterexample: the claim asserts that `can_enter_room` denies a
candidate whenever `len(occupants) >= capacity` and that therefore
`len(occupants) <= capacity` always holds.  With `room_count = 1` and two
dogs arriving at t = 0, the very first loop iteration admits both dogs, so
the room holds 2 occupants against a capacity of 1. -/
theorem claim_C1_counterexample :
    c1cfg.room_count = 1 ∧
    (runLoop c1cfg (numAnimals c1cfg) 1 (initState c1cfg)).animals_in_room.length = 2 := by
  exact ⟨by decide, by decide⟩

/-- C1 (amended): `can_enter_room` performs no capacity check at all — a
candidate whose species matches every occupant is admitted regardless of how
many occupants the room already has, so occupancy is not bounded by
`room_count`. -/
theorem claim_C1 (animal : Animal) (sign : String) (room : List Animal)
    (h : room.all (fun b => animal.species == b.species) = true) :
    can_enter_room animal sign room = true := by
  unfold can_enter_room
  split
  · rfl
  · exact h

/-- Witness for C1 at a concrete input: a room already holding one dog and a
second dog candidate. -/
theorem claim_C1_witness :
    ([occD].all (fun b => candD.species == b.species) = true) ∧
    can_enter_room candD "DOG" [occD] = true :=
  ⟨by decide, claim_C1 candD "DOG" [occD] (by decide)⟩

/-- C2: a candidate is admitted into a non-empty room only when its species
equals that of every occupant, and in every state reached by the
deterministic driver's loop (any configuration, any number of iterations)
all room occupants share a single species — the occupant-species set has
size at most 1. -/
theorem claim_C2 :
    (∀ (animal : Animal) (sign : String) (room : List Animal),
        can_enter_room animal sign room = true → room ≠ [] →
        ∀ b ∈ room, animal.species = b.species) ∧
    (∀ (cfg : Config) (k : Nat),
        sameSpecies ((runLoop cfg (numAnimals cfg) k (initState cfg)).animals_in_room)) := by
  constructor
  · exact fun animal sign room h hne => can_enter_room_eq_species h hne
  · intro cfg k
    apply runLoop_sameSpecies
    intro a ha
    exact absurd ha (List.not_mem_nil a)

/-- Witness for C2: a same-species candidate admitted into an occupied room
indeed matches the occupant's species. -/
theorem claim_C2_witness :
    can_enter_room candD "DOG" [occD] = true ∧ candD.species = occD.species :=
  ⟨by decide, claim_C2.1 candD "DOG" [occD] (by decide) (by decide) occD (by decide)⟩

theorem c3_step (k : Nat) (h2 : (k:Int) < 20000) :
    stepBody c3cfg (c3state k) = (c3state (k + 1), false) := by
  have hk1 : ¬ (20000 ≤ k) := by omega
  have hk2 : ¬ ((20000:Int) ≤ (k:Int)) := by omega
  simp [stepBody, phaseArrive, drainArrivals, phaseComplete, phaseSignEmpty, phaseAdmit,
    phaseAdvance, c3state, hk1, hk2, List.filter_cons, List.filter_nil]
  omega

theorem c3_start : stepBody c3cfg (initState c3cfg) = (c3state 1, false) := by decide

theorem c3_run (fuel : Nat) :
    ∀ k : Nat, 1 ≤ k → k ≤ 10000 → k + fuel = 10001 →
      runLoop c3cfg 1 fuel (c3state k) = c3state 10000 := by
  induction fuel with
  | zero =>
    intro k h1 h2 h3
    exfalso
    omega
  | succ f ih =>
    intro k h1 h2 h3
    simp only [runLoop]
    by_cases hk : k < 10000
    · rw [if_pos ⟨Nat.lt_of_sub_eq_succ rfl, show (c3state k).iterations < maxIterations from hk⟩]
      rw [c3_step k (by omega)]
      rw [if_neg Bool.false_ne_true]
      exact ih (k + 1) (by omega) (by omega) (by omega)
    · have hk10 : k = 10000 := by omega
      subst hk10
      rw [if_neg]
      intro hcon
      exact absurd hcon.2 (by simp [c3state, maxIterations])

theorem runLoop_succ (cfg : Config) (n fuel : Nat) (s : SimState) :
    runLoop cfg n (Nat.succ fuel) s =
      if s.completed_animals.length < n ∧ s.iterations < maxIterations then
        let sb := stepBody cfg s
        if sb.2 then sb.1 else runLoop cfg n fuel sb.1
      else s := rfl

theorem finalState_c3 : finalState c3cfg = c3state 10000 := by
  show runLoop c3cfg 1 (Nat.succ 10000) (initState c3cfg) = c3state 10000
  rw [runLoop_succ]
  rw [if_pos ⟨by decide, by decide⟩]
  show (if (stepBody c3cfg (initState c3cfg)).2 = true
      then (stepBody c3cfg (initState c3cfg)).1
      else runLoop c3cfg 1 10000 (stepBody c3cfg (initState c3cfg)).1) = c3state 10000
  rw [c3_start]
  rw [if_neg Bool.false_ne_true]
  exact c3_run 10000 1 (by omega) (by omega) (by omega)

theorem c3_result :
    simulate c3cfg =
      { total_animals := 1, avg_wait_time := 0, avg_turnaround_time := 0,
        total_sign_changes := 1, total_time := 10000, timeline := [] } := by
  have h0 : simulate c3cfg = c3Res (finalState c3cfg) := rfl
  have h2 : c3Res (c3state 10000) =
      { total_animals := 1, avg_wait_time := 0, avg_turnaround_time := 0,
        total_sign_changes := 1, total_time := 10000, timeline := [] } := by
    norm_num [c3Res, c3state, numAnimals, c3cfg]
  exact h0.trans ((congrArg c3Res finalState_c3).trans h2)

/-- C3 counterexample: a single animal with rest 20000 makes the loop hit
its 10000-iteration cap with nothing completed, yet `simulate` returns the
ordinary result dictionary — empty timeline and zero average wait — rather
than any failure value distinct from a normal result. -/
theorem claim_C3_counterexample :
    (finalState c3cfg).iterations = maxIterations ∧
    (finalState c3cfg).completed_animals.length = 0 ∧
    (simulate c3cfg).timeline = [] ∧
    (simulate c3cfg).avg_wait_time = 0 :=
  ⟨Eq.trans (congrArg SimState.iterations finalState_c3) rfl,
   Eq.trans (congrArg (fun s => s.completed_animals.length) finalState_c3) rfl,
   Eq.trans (congrArg SimResult.timeline c3_result) rfl,
   Eq.trans (congrArg SimResult.avg_wait_time c3_result) rfl⟩

/-- C3 (amended): when the iteration cap is exceeded before every entity is
completed, `simulate` (after printing a warning) still returns the normal
result dictionary carrying partial/zero metrics (empty timeline, zero
average times, zero completions); no distinct terminal failure result
exists. -/
theorem claim_C3 :
    simulate c3cfg =
      { total_animals := 1, avg_wait_time := 0, avg_turnaround_time := 0,
        total_sign_changes := 1, total_time := 10000, timeline := [] } :=
  c3_result

/-- C4 counterexample: species "LIZARD" is not in the configured
`allowed_states`, yet the candidate is admitted into the room on the first
iteration — the admission decision never consults the allowed-species set. -/
theorem claim_C4_counterexample :
    ¬ ("LIZARD" ∈ c4cfg.allowed_states) ∧
    (runLoop c4cfg (numAnimals c4cfg) 1 (initState c4cfg)).animals_in_room
      = [{ mkAnimal "L1" "LIZARD" 0 3 with remaining_rest := 2, entry_time := 0 }] := by
  exact ⟨by decide, by decide⟩

/-- C4 (amended): `can_enter_room` ignores `allowed_states` entirely — a
candidate of any species whatsoever is admitted whenever the room is empty
(and, by claim C1's theorem, whenever it matches the occupants). -/
theorem claim_C4 (animal : Animal) (sign : String) :
    can_enter_room animal sign [] = true := rfl

/-- C5 counterexample: on the spec's scenario the sign-change counter does
not end at 3. -/
theorem claim_C5_counterexample : (simulate c5cfg).total_sign_changes ≠ 3 := by
  decide

/-- C5 (amended): for the scenario D1(DOG, arr 0, rest 5) and C1(CAT, arr 1,
rest 3) with FIFO, latency 0, capacity 1 and initial sign EMPTY, the driver
produces D1 entry 0 / exit 5 and C1 entry 5 / exit 8, and the sign-change
counter ends at 4: EMPTY→DOG, DOG→EMPTY, EMPTY→CAT and the final CAT→EMPTY
flip when the last occupant leaves is counted as well. -/
theorem claim_C5 :
    (simulate c5cfg).timeline =
      [{ animal_id := "D1", species := "DOG", arrival := 0, entry := 0, exit := 5,
         wait_time := 0, turnaround_time := 5 },
       { animal_id := "C1", species := "CAT", arrival := 1, entry := 5, exit := 8,
         wait_time := 4, turnaround_time := 7 }] ∧
    (simulate c5cfg).total_sign_changes = 4 := by
  exact ⟨by decide, by decide⟩

/-- C6: in a single admission step taken with the sign EMPTY, the
non-negative sign-change latency is added to the simulated clock strictly
before the new occupant's `entry_time` is stamped, so the stamped
`entry_time` (and the resulting clock) equal the pre-admission time plus the
latency; and on the spec's scenario (latency 2, one DOG arriving at t = 0
with rest 3) the driver stamps entry_time 2 and exit_time 5. -/
theorem claim_C6 :
    (∀ (latency : Int) (s : SimState) (a : Animal),
        0 ≤ latency → s.current_sign = "EMPTY" →
        can_enter_room a s.current_sign s.animals_in_room = true →
        (admitOne latency s a).animals_in_room
            = s.animals_in_room ++ [{ a with entry_time := s.current_time + latency }] ∧
        (admitOne latency s a).current_time = s.current_time + latency) ∧
    (simulate c6cfg).timeline
      = [{ animal_id := "D1", species := "DOG", arrival := 0, entry := 2, exit := 5,
           wait_time := 2, turnaround_time := 5 }] := by
  constructor
  · intro latency s a hl hsign hcan
    have hsb : (s.current_sign == "EMPTY") = true := by rw [hsign]; rfl
    by_cases hpos : latency > 0
    · constructor <;> simp [admitOne, hcan, hsb, hpos]
    · have hz : latency = 0 := le_antisymm (not_lt.mp hpos) hl
      subst hz
      constructor <;> simp [admitOne, hcan, hsb]
  · decide

/-- Witness for C6: one concrete admission step with latency 2 from the
concrete state `st0` (time 0, sign EMPTY, empty room). -/
theorem claim_C6_witness :
    (0:Int) ≤ 2 ∧
    ((admitOne 2 st0 dogW).animals_in_room
        = st0.animals_in_room ++ [{ dogW with entry_time := st0.current_time + 2 }] ∧
      (admitOne 2 st0 dogW).current_time = st0.current_time + 2) :=
  ⟨by decide, claim_C6.1 2 st0 dogW (by decide) rfl (by decide)⟩

/-- C7: the deterministic driver is a pure function of the workload and
configuration — two runs on equal configurations produce identical timelines
(and identical full results). -/
theorem claim_C7 (cfg1 cfg2 : Config) (h : cfg1 = cfg2) :
    (simulate cfg1).timeline = (simulate cfg2).timeline ∧ simulate cfg1 = simulate cfg2 := by
  subst h
  exact ⟨rfl, rfl⟩

/-- Witness for C7 at the concrete scenario configuration. -/
theorem claim_C7_witness :
    c5cfg = c5cfg ∧
    ((simulate c5cfg).timeline = (simulate c5cfg).timeline ∧ simulate c5cfg = simulate c5cfg) :=
  ⟨rfl, claim_C7 c5cfg c5cfg rfl⟩

/-- C8: for every configuration, the main loop of `simulate` executes at
most `max_iterations` = 10000 iterations (and, the embedding being a total
function, `simulate` always returns a result record). -/
theorem claim_C8 (cfg : Config) : (finalState cfg).iterations ≤ maxIterations := by
  unfold finalState
  apply runLoop_iterations_le
  · have h0 : (initState cfg).iterations = 0 := rfl
    omega
  · have h0 : (initState cfg).iterations = 0 := rfl
    omega

/-- C9: `simulate` rewrites the animals' state rather than working on fresh
copies — modelled by explicit state threading.  For every configuration with
non-negative latency and arrival times, every animal in the final completed
list has `remaining_rest ≤ 0` and both `entry_time` and `exit_time`
overwritten with (non-negative) clock values, no longer the freshly
constructed `-1`/full-rest state; in a run in which every animal completed,
that is every animal the simulator holds. -/
theorem claim_C9 (cfg : Config) (hlat : 0 ≤ cfg.sign_change_latency)
    (harr : cfg.animals.all (fun a => decide (0 ≤ a.arrival_time)) = true)
    (hdone : (finalState cfg).completed_animals.length = numAnimals cfg) :
    (finalState cfg).completed_animals.all animalFinished = true := by
  have hinv : timesInv (finalState cfg) := by
    unfold finalState
    apply runLoop_timesInv cfg _ hlat
    refine ⟨le_refl 0, ?_, ?_, ?_⟩
    · intro a ha
      exact absurd ha (List.not_mem_nil a)
    · intro a ha
      exact absurd ha (List.not_mem_nil a)
    · intro a ha
      have hmem : a ∈ initAnimals cfg := stableSort_subset keyLt (initAnimals cfg) ha
      rcases List.mem_map.mp hmem with ⟨sp, hsp, rfl⟩
      exact of_decide_eq_true (List.all_eq_true.mp harr sp hsp)
  rw [List.all_eq_true]
  intro a ha
  obtain ⟨ha1, ha2, ha3⟩ := hinv.2.2.1 a ha
  simp [animalFinished, ha1, ha2, ha3]

/-- Witness for C9: the one-dog run `w9cfg` in which every animal completes. -/
theorem claim_C9_witness :
    ((0:Int) ≤ w9cfg.sign_change_latency ∧
      w9cfg.animals.all (fun a => decide (0 ≤ a.arrival_time)) = true ∧
      (finalState w9cfg).completed_animals.length = numAnimals w9cfg) ∧
    (finalState w9cfg).completed_animals.all animalFinished = true :=
  ⟨⟨by decide, by decide, by decide⟩, claim_C9 w9cfg (by decide) (by decide) (by decide)⟩

end Q3

namespace Prog

/-- C10: in programadores.py every acquisition takes the compiler and one
database slot together in one critical section and releases both together,
so in every reachable state `db_users` is 0 or 1, `compiler_in_use` holds
exactly when `db_users = 1`, and `db_users` stays strictly below
`MAX_DB_USERS = 2` — the second permitted database connection is never in
use. -/
theorem claim_C10 (s : LabState) (h : Reachable s) :
    (s.db_users = 0 ∨ s.db_users = 1) ∧
    (s.compiler_in_use = true ↔ s.db_users = 1) ∧
    s.db_users < MAX_DB_USERS := by
  obtain ⟨h1, h2, h3⟩ := lab_inv h
  have hM : MAX_DB_USERS = 2 := rfl
  refine ⟨by omega, ?_, by omega⟩
  constructor
  · intro hc
    have := h3.mp hc
    omega
  · intro hdb
    apply h3.mpr
    omega

/-- Witness for C10 at the initial state. -/
theorem claim_C10_witness :
    Reachable initLab ∧
    ((initLab.db_users = 0 ∨ initLab.db_users = 1) ∧
      (initLab.compiler_in_use = true ↔ initLab.db_users = 1) ∧
      initLab.db_users < MAX_DB_USERS) :=
  ⟨Reachable.init, claim_C10 initLab Reachable.init⟩

end Prog
